import Mathlib

/-!
Verification of the gogitup concurrent repository-update engine.

This file gives a shallow embedding of the core of the program: the
per-repository update state machine of internal/git/repository.go (clean
check, backend selection, fetch / pull / fork-reset-push, diff-stat
attachment), the diff-stat formatting algorithm (formatDiffStat and the
stat block of Update), the bounded worker pool of the update command, and
the result aggregator. Theorems at the end of the file settle the frozen
claims about these components.

Conventions: Go machine integers that are provably non-negative are
modelled as Nat; quantities that the Go code computes with possibly
negative int arithmetic (the graph width) are modelled as Int. Fallible
steps return Option values, network effects are modelled by an explicit
environment record describing what every remote operation would do, and
each run of the updater also returns the list of git operations it
attempted, in order.
-/

/-- DiffEntry models one row of the per-file diff statistics map built by
Update in internal/git/repository.go: a file path together with its added
and removed line counts. The list order of a `List DiffEntry` models the
iteration order of the Go map. -/
structure DiffEntry where
  path : String
  added : Nat
  removed : Nat
deriving DecidableEq, Repr

/-- padRight models the Go format verb that left-justifies a string in a
field of the given width, padding with spaces and never truncating. -/
def padRight (s : String) (w : Nat) : String :=
  s ++ String.mk (List.replicate (w - s.length) ' ')

/-- padLeft models the Go format verb that right-justifies a string in a
field of the given width, padding with spaces and never truncating. -/
def padLeft (s : String) (w : Nat) : String :=
  String.mk (List.replicate (w - s.length) ' ') ++ s

/-- graphWidthOf is the graph-width computation of formatDiffStat in
internal/git/repository.go: termWidth - maxPathLen - maxNumLen - 5,
computed in Go int arithmetic, hence possibly non-positive. -/
def graphWidthOf (termWidth maxPathLen maxNumLen : Nat) : Int :=
  (termWidth : Int) - maxPathLen - maxNumLen - 5

/-- graphCounts is the symbol-allocation computation inside the positive
graph-width branch of formatDiffStat: symbolCount starts at total and is
clamped to graphWidth, then plusCount = added * symbolCount / total and
minusCount = symbolCount - plusCount when total is positive, both zero
otherwise. -/
def graphCounts (added removed : Nat) (graphWidth : Int) : Nat × Nat :=
  let total := added + removed
  let symbolCount := if (total : Int) > graphWidth then graphWidth.toNat else total
  if 0 < total then
    let plusCount := added * symbolCount / total
    (plusCount, symbolCount - plusCount)
  else
    (0, 0)

/-- formatDiffStat models the function of the same name in
internal/git/repository.go: it renders one per-file line, consisting of a
space, the left-justified path, a separator, the right-justified total,
a space, and the proportional plus/minus graph (empty when the computed
graph width is not positive). -/
def formatDiffStat (path : String) (added removed : Nat)
    (maxPathLen maxNumLen termWidth : Nat) (green red : String → String) : String :=
  let graphWidth := graphWidthOf termWidth maxPathLen maxNumLen
  let total := added + removed
  let graph :=
    if 0 < graphWidth then
      let pm := graphCounts added removed graphWidth
      green (String.mk (List.replicate pm.1 '+')) ++ red (String.mk (List.replicate pm.2 '-'))
    else
      ""
  " " ++ padRight path maxPathLen ++ " | " ++ padLeft (toString total) maxNumLen ++ " " ++ graph

/-- specGraphWidth follows the words of the spec, section 4.2: graphWidth
is max(minimumGraphWidth, displayWidth - maxPathLen - maxNumLen -
separatorWidth) with separatorWidth = 5 and minimumGraphWidth = 10. It is
stated for comparison against graphWidthOf, the definition taken from the
source. -/
def specGraphWidth (termWidth maxPathLen maxNumLen : Nat) : Int :=
  max 10 ((termWidth : Int) - maxPathLen - maxNumLen - 5)

/-- specGraphCounts follows the words of the spec, section 4.2: for each
file, total = added + removed, symbolCount = min(total, graphWidth); if
total is positive then plusCount = floor(added * symbolCount / total) and
minusCount = symbolCount - plusCount, and if total = 0 both counts are 0.
It is stated for comparison against graphCounts, the definition taken
from the source. -/
def specGraphCounts (added removed graphWidth : Nat) : Nat × Nat :=
  let total := added + removed
  let symbolCount := min total graphWidth
  if 0 < total then
    (added * symbolCount / total, symbolCount - added * symbolCount / total)
  else
    (0, 0)

/-- formatDiffStatSpec follows the words of the spec for one rendered
per-file line, using the floored specGraphWidth and specGraphCounts. It
is stated for comparison against formatDiffStat, the definition taken
from the source. -/
def formatDiffStatSpec (path : String) (added removed : Nat)
    (maxPathLen maxNumLen termWidth : Nat) (green red : String → String) : String :=
  let graphWidth := specGraphWidth termWidth maxPathLen maxNumLen
  let pm := specGraphCounts added removed graphWidth.toNat
  " " ++ padRight path maxPathLen ++ " | " ++ padLeft (toString (added + removed)) maxNumLen ++
    " " ++ green (String.mk (List.replicate pm.1 '+')) ++ red (String.mk (List.replicate pm.2 '-'))

/-- maxPathLenOf is the longest-path scan of the stat block of Update in
internal/git/repository.go. -/
def maxPathLenOf (entries : List DiffEntry) : Nat :=
  entries.foldl (fun m e => if e.path.length > m then e.path.length else m) 0

/-- maxTotalOf is the largest per-file total scan of the stat block of
Update in internal/git/repository.go. -/
def maxTotalOf (entries : List DiffEntry) : Nat :=
  entries.foldl (fun m e => if e.added + e.removed > m then e.added + e.removed else m) 0

/-- maxNumLenOf is the decimal width of the largest per-file total, as
computed in the stat block of Update. -/
def maxNumLenOf (entries : List DiffEntry) : Nat :=
  (toString (maxTotalOf entries)).length

/-- totalAddedOf accumulates the added counts in iteration order, as the
stat block of Update does while formatting the lines. -/
def totalAddedOf (entries : List DiffEntry) : Nat :=
  entries.foldl (fun s e => s + e.added) 0

/-- totalRemovedOf accumulates the removed counts in iteration order, as
the stat block of Update does while formatting the lines. -/
def totalRemovedOf (entries : List DiffEntry) : Nat :=
  entries.foldl (fun s e => s + e.removed) 0

/-- diffStatLines is the per-file portion of the stat block of Update:
one formatDiffStat line per entry, in the iteration order of the map. -/
def diffStatLines (entries : List DiffEntry) (termWidth : Nat)
    (green red : String → String) : List String :=
  entries.map (fun e =>
    formatDiffStat e.path e.added e.removed (maxPathLenOf entries) (maxNumLenOf entries)
      termWidth green red)

/-- diffStatSummary is the trailing summary line of the stat block of
Update: count of changed files, total insertions, total deletions. -/
def diffStatSummary (entries : List DiffEntry) : String :=
  " " ++ toString entries.length ++ " files changed, " ++ toString (totalAddedOf entries) ++
    " insertions(+), " ++ toString (totalRemovedOf entries) ++ " deletions(-)"

/-- renderDiffStat joins the per-file lines and the summary line with
newlines, exactly as the stat block of Update builds the DiffStats
string. -/
def renderDiffStat (entries : List DiffEntry) (termWidth : Nat)
    (green red : String → String) : String :=
  String.intercalate "\n" (diffStatLines entries termWidth green red ++ [diffStatSummary entries])

/-- UpdateError models the closed set of error results of the updater:
the sentinel unstaged-changes error of internal/git/repository.go, and
every other wrapped error, carried as its message. -/
inductive UpdateError
| unstagedChanges
| other (msg : String)
deriving DecidableEq, Repr

/-- StatusCode models the per-file status codes the go-git worktree
status reports; only the codes the updater can observe are listed. -/
inductive StatusCode
| unmodified
| untracked
| modified
| added
| deleted
deriving DecidableEq, Repr

/-- FileStatus is one entry of the worktree status: a path with its
staging-area and worktree status codes. -/
structure FileStatus where
  path : String
  staging : StatusCode
  worktree : StatusCode
deriving DecidableEq, Repr

/-- statusIsClean models the go-git IsClean check used by Update: the
status is clean only when every entry is unmodified in both the staging
area and the worktree; an untracked entry therefore makes it false. The
porcelain-output check of updateLFSRepository observes the same
condition: the porcelain listing is empty exactly when no entry has a
non-unmodified code. -/
def statusIsClean (status : List FileStatus) : Bool :=
  status.all (fun f => f.staging == .unmodified && f.worktree == .unmodified)

/-- Repository models the Repository struct of internal/git/repository.go
together with the parts of the working copy the updater reads: whether
the gitattributes file carries an LFS marker, the worktree status, the
current branch (short name) and its tip hash, and the DiffStats string
the updater may attach. upstreamDefaultBranch records which branch the
upstream remote actually designates as its default; the Go code never
reads it, it exists only so that spec-level statements about the default
branch can be expressed. -/
structure Repository where
  path : String
  hasUpstream : Bool
  diffStats : String
  isLFS : Bool
  status : List FileStatus
  headBranch : String
  headHash : String
  upstreamDefaultBranch : String
deriving DecidableEq, Repr

/-- GitOp is one attempted git operation, recorded in order by the
updater model. -/
inductive GitOp
| fetch (remote : String)
| pull (remote : String) (branch : String)
| resetHard (ref : String)
| push (remote : String) (refspec : String) (force : Bool)
| mergeFFOnly (ref : String)
deriving DecidableEq, Repr

/-- FetchResult is the outcome an environment assigns to a fetch or push:
plain success, the already-up-to-date sentinel (not an error in the Go
code), or an error with a message. -/
inductive FetchResult
| ok
| upToDate
| errMsg (msg : String)
deriving DecidableEq, Repr

/-- PullResult is the outcome an environment assigns to the pull step:
already up to date, success moving the head to a new hash, the go-git
unstaged-changes sentinel, an authentication failure, or another
failure. -/
inductive PullResult
| upToDate
| advanced (newHead : String)
| unstaged
| authRequired
| failed (msg : String)
deriving DecidableEq, Repr

/-- Env fixes what every remote or native-git operation of one Update
invocation would do: results for the library-backend fetch, pull, reset
and push, the resolved hash of refs/remotes/upstream/master if any, the
per-file patch statistics between the old and new head, the terminal
width, and the outcomes of the native-command steps used for LFS
repositories. -/
structure Env where
  fetchOrigin : FetchResult
  fetchUpstream : FetchResult
  pullOrigin : PullResult
  upstreamMaster : Option String
  resetOk : Bool
  pushOrigin : FetchResult
  patch : List DiffEntry
  termWidth : Nat
  lfsFetchOk : Bool
  lfsMergeOk : Bool
  lfsMergedHead : String
  lfsDiffOk : Bool
  lfsDiff : String
deriving Repr

/-- updateOrigin models the function of the same name in
internal/git/repository.go: fetch origin (already-up-to-date is not an
error), then pull the current branch from origin, translating the go-git
sentinels exactly as the source does. It returns the repository, the
error result, and the attempted operations in order. -/
def updateOrigin (r : Repository) (env : Env) :
    Repository × Option UpdateError × List GitOp :=
  match env.fetchOrigin with
  | .errMsg m => (r, some (.other ("failed to fetch from origin: " ++ m)), [.fetch "origin"])
  | _ =>
    let ops := [GitOp.fetch "origin", GitOp.pull "origin" r.headBranch]
    match env.pullOrigin with
    | .upToDate => (r, none, ops)
    | .advanced h => ({ r with headHash := h }, none, ops)
    | .unstaged => (r, some .unstagedChanges, ops)
    | .authRequired =>
      (r, some (.other "authentication required: set GITHUB_TOKEN environment variable for GitHub repositories"), ops)
    | .failed m => (r, some (.other ("failed to pull from origin: " ++ m)), ops)

/-- pushRefspec is the force-push refspec the fork workflow builds from
the current branch: full head reference on the left, refs/heads/ plus the
short name on the right. -/
def pushRefspec (branch : String) : String :=
  "refs/heads/" ++ branch ++ ":refs/heads/" ++ branch

/-- updateWithUpstream models the function of the same name in
internal/git/repository.go: fetch the upstream remote, resolve the
hard-coded refs/remotes/upstream/master reference, hard-reset the
worktree to it, and force-push the current branch to origin
(already-up-to-date is not an error for fetch or push). -/
def updateWithUpstream (r : Repository) (env : Env) :
    Repository × Option UpdateError × List GitOp :=
  match env.fetchUpstream with
  | .errMsg m => (r, some (.other ("failed to fetch from upstream: " ++ m)), [.fetch "upstream"])
  | _ =>
    match env.upstreamMaster with
    | none =>
      (r, some (.other "failed to get upstream master reference"), [.fetch "upstream"])
    | some h =>
      if env.resetOk then
        let ops := [GitOp.fetch "upstream", GitOp.resetHard "refs/remotes/upstream/master",
          GitOp.push "origin" (pushRefspec r.headBranch) true]
        match env.pushOrigin with
        | .errMsg m => ({ r with headHash := h }, some (.other ("failed to push to origin: " ++ m)), ops)
        | _ => ({ r with headHash := h }, none, ops)
      else
        (r, some (.other "failed to reset to upstream/master"),
          [.fetch "upstream", .resetHard "refs/remotes/upstream/master"])

/-- updateLFSRepository models the function of the same name in
internal/git/repository.go: check the porcelain status (any entry blocks
with the unstaged-changes sentinel), then fetch and fast-forward-merge
from upstream when hasUpstream is set and from origin otherwise, and on
success store the native diff --stat output in DiffStats. No push is ever
attempted on this path. -/
def updateLFSRepository (r : Repository) (env : Env) :
    Repository × Option UpdateError × List GitOp :=
  if !(statusIsClean r.status) then
    (r, some .unstagedChanges, [])
  else
    let remote := if r.hasUpstream then "upstream" else "origin"
    if env.lfsFetchOk then
      if env.lfsMergeOk then
        let r1 : Repository := { r with headHash := env.lfsMergedHead }
        let ops := [GitOp.fetch remote, GitOp.mergeFFOnly (remote ++ "/" ++ r.headBranch)]
        if env.lfsDiffOk then
          ({ r1 with diffStats := env.lfsDiff }, none, ops)
        else
          (r1, some (.other "failed to get diff stats"), ops)
      else
        (r, some (.other ("failed to merge " ++ remote ++ " changes")),
          [.fetch remote, .mergeFFOnly (remote ++ "/" ++ r.headBranch)])
    else
      (r, some (.other ("failed to fetch from " ++ remote)), [.fetch remote])

/-- Update models the Update method of internal/git/repository.go: LFS
repositories are delegated to the native backend; otherwise the worktree
status is checked first and any non-clean status returns the
unstaged-changes sentinel with no operation attempted; then the old head
is captured, updateWithUpstream or updateOrigin runs, and on success with
a moved head and a non-empty patch the rendered diff-stat text is
attached to DiffStats. -/
def Update (r : Repository) (env : Env) (green red : String → String) :
    Repository × Option UpdateError × List GitOp :=
  if r.isLFS then
    updateLFSRepository r env
  else if !(statusIsClean r.status) then
    (r, some .unstagedChanges, [])
  else
    let oldHead := r.headHash
    match (if r.hasUpstream then updateWithUpstream r env else updateOrigin r env) with
    | (r1, some e, ops) => (r1, some e, ops)
    | (r1, none, ops) =>
      if oldHead == r1.headHash then
        (r1, none, ops)
      else if env.patch.isEmpty then
        (r1, none, ops)
      else
        ({ r1 with diffStats := renderDiffStat env.patch env.termWidth green red }, none, ops)

/-- UpdateResult models the updateResult struct of the update command:
the repository path, an optional error, and a warning string that is
non-empty only for the uncommitted-changes case. -/
structure UpdateResult where
  path : String
  error : Option UpdateError
  warning : String
deriving DecidableEq, Repr

/-- mkUpdateResult models the worker body of the update command: the
sentinel uncommitted-changes error becomes a warning, every other error
is recorded as an error, and a nil error yields a plain success
result. -/
def mkUpdateResult (path : String) (e : Option UpdateError) : UpdateResult :=
  match e with
  | none => ⟨path, none, ""⟩
  | some .unstagedChanges => ⟨path, none, "worktree contains uncommitted changes"⟩
  | some err => ⟨path, some err, ""⟩

/-- AggState models the accumulator of the result loop of the update
command: the number of results processed, the error list, and the
warnings map (modelled as an association list keyed by path). -/
structure AggState where
  count : Nat
  errors : List (String × UpdateError)
  warnings : List (String × String)
deriving DecidableEq, Repr

/-- insertWarning models assignment into the Go warnings map keyed by
repository path: overwrite the entry of an existing key, otherwise add a
new one. -/
def insertWarning (m : List (String × String)) (k v : String) : List (String × String) :=
  if m.any (fun p => p.1 == k) then
    m.map (fun p => if p.1 == k then (k, v) else p)
  else
    m ++ [(k, v)]

/-- aggStep models one iteration of the result loop of the update
command: an error result is appended to the error list, otherwise a
non-empty warning is stored in the warnings map, otherwise the result
counts as a plain success; every result increments the processed
count. -/
def aggStep (st : AggState) (res : UpdateResult) : AggState :=
  match res.error with
  | some e => { st with count := st.count + 1, errors := st.errors ++ [(res.path, e)] }
  | none =>
    if res.warning ≠ "" then
      { st with count := st.count + 1, warnings := insertWarning st.warnings res.path res.warning }
    else
      { st with count := st.count + 1 }

/-- aggregate folds the result loop of the update command over a list of
results in delivery order, starting from the empty accumulator. -/
def aggregate (results : List UpdateResult) : AggState :=
  results.foldl aggStep ⟨0, [], []⟩

/-- printedSuccesses models the success tally the update command prints:
len(repos) - len(errors) - len(warnings), in Go int arithmetic. -/
def printedSuccesses (numRepos : Nat) (st : AggState) : Int :=
  (numRepos : Int) - st.errors.length - st.warnings.length

/-- clampWorkers models the worker-count clamping of the update command:
a requested count below 1 becomes 1, and a count above the number of
repositories becomes that number. -/
def clampWorkers (threads : Int) (numRepos : Nat) : Int :=
  let w := if threads < 1 then 1 else threads
  if w > numRepos then numRepos else w

/-- PoolState models the channel-based worker pool of the update command:
the jobs channel buffer in send order, the multiset of repositories
currently claimed by busy workers, and the multiset of delivered
results. -/
structure PoolState where
  jobs : List String
  inFlight : Multiset String
  results : Multiset UpdateResult

/-- initPool is the pool state right after the update command has sent
every repository into the jobs channel and closed it: all descriptors
pending, no worker busy, no result delivered. -/
def initPool (descriptors : List String) : PoolState :=
  ⟨descriptors, 0, 0⟩

/-- PoolStep is one scheduler event of the worker pool: an idle worker
(fewer busy workers than numWorkers) receives the next job from the
channel, or a busy worker finishes its repository and delivers the result
computed by upd. -/
inductive PoolStep (upd : String → UpdateResult) (numWorkers : Nat) :
    PoolState → PoolState → Prop
| claim (d : String) (rest : List String) (f : Multiset String) (res : Multiset UpdateResult)
    (h : Multiset.card f < numWorkers) :
    PoolStep upd numWorkers ⟨d :: rest, f, res⟩ ⟨rest, d ::ₘ f, res⟩
| finish (d : String) (jobs : List String) (f : Multiset String) (res : Multiset UpdateResult)
    (h : d ∈ f) :
    PoolStep upd numWorkers ⟨jobs, f, res⟩ ⟨jobs, f.erase d, upd d ::ₘ res⟩

/-- graphCounts agrees with the specGraphCounts formulas whenever the
graph width is positive, the only case in which formatDiffStat uses
it. -/
lemma graphCounts_eq_specGraphCounts (added removed : Nat) (gw : Int) (h : 0 < gw) :
    graphCounts added removed gw = specGraphCounts added removed gw.toNat := by
  simp only [graphCounts, specGraphCounts]
  have hsc : (if ((added + removed : Nat) : Int) > gw then gw.toNat else added + removed)
      = min (added + removed) gw.toNat := by
    split <;> omega
  rw [hsc]

/-- C4: for every file entry, the symbol allocation of the diff-stat
graph follows the spec formulas: symbolCount = min(total, graphWidth),
plusCount = floor(added * symbolCount / total) and minusCount =
symbolCount - plusCount when total is positive, both zero when total is
zero; in particular graphCounts 6 2 8 = (6, 2) and
graphCounts 30 10 8 = (6, 2). -/
theorem c4_symbol_allocation (added removed : Nat) (gw : Int) (h : 0 < gw) :
    graphCounts added removed gw = specGraphCounts added removed gw.toNat :=
  graphCounts_eq_specGraphCounts added removed gw h

/-- Witness for c4_symbol_allocation at the two inputs named by the
claim: added 6, removed 2, graph width 8, and added 30, removed 10,
graph width 8. -/
theorem c4_symbol_allocation_witness :
    (0 : Int) < 8 ∧ graphCounts 6 2 8 = specGraphCounts 6 2 (Int.toNat 8) ∧
      graphCounts 30 10 8 = specGraphCounts 30 10 (Int.toNat 8) ∧
      graphCounts 6 2 8 = (6, 2) ∧ graphCounts 30 10 8 = (6, 2) :=
  ⟨by decide, c4_symbol_allocation 6 2 8 (by decide),
    c4_symbol_allocation 30 10 8 (by decide), by decide, by decide⟩

/-- C5, counterexample: at display width 20 with a longest path of 10
characters and a 3-digit largest total, the source computes a graph
width of 2 with no minimum floor, while the spec formula demands
max(10, 2) = 10; the rendered line carries only 2 symbols. -/
theorem c5_graph_width_counterexample :
    graphWidthOf 20 10 3 = 2 ∧ specGraphWidth 20 10 3 = 10 ∧
      formatDiffStat "abcdefghij" 100 0 10 3 20 id id = " abcdefghij | 100 ++" ∧
      formatDiffStat "abcdefghij" 100 0 10 3 20 id id ≠
        formatDiffStatSpec "abcdefghij" 100 0 10 3 20 id id := by
  refine ⟨by decide, by decide, by decide, by decide⟩

/-- C5, amended: the graph width used in rendering is
displayWidth - maxPathLen - maxNumLen - 5 with no minimum floor, so the
rendered line agrees with the floored spec rendering exactly on displays
wide enough that the difference already reaches 10; on narrower displays
the graph is smaller than the spec demands and may be empty. -/
theorem c5_graph_width_amended (path : String) (added removed maxPathLen maxNumLen termWidth : Nat)
    (green red : String → String)
    (h : 10 ≤ (termWidth : Int) - maxPathLen - maxNumLen - 5) :
    formatDiffStat path added removed maxPathLen maxNumLen termWidth green red =
      formatDiffStatSpec path added removed maxPathLen maxNumLen termWidth green red := by
  have hgw : graphWidthOf termWidth maxPathLen maxNumLen =
      (termWidth : Int) - maxPathLen - maxNumLen - 5 := rfl
  have hspec : specGraphWidth termWidth maxPathLen maxNumLen =
      graphWidthOf termWidth maxPathLen maxNumLen := by
    simp only [specGraphWidth, graphWidthOf]
    omega
  have hpos : 0 < graphWidthOf termWidth maxPathLen maxNumLen := by
    simp only [graphWidthOf]; omega
  simp only [formatDiffStat, formatDiffStatSpec, hspec, if_pos hpos,
    graphCounts_eq_specGraphCounts added removed _ hpos, String.append_assoc]

/-- Witness for c5_graph_width_amended at display width 100, longest
path 10, number width 3. -/
theorem c5_graph_width_amended_witness :
    (10 : Int) ≤ (100 : Nat) - (10 : Nat) - (3 : Nat) - 5 ∧
      formatDiffStat "abcdefghij" 6 2 10 3 100 id id =
        formatDiffStatSpec "abcdefghij" 6 2 10 3 100 id id :=
  ⟨by decide, c5_graph_width_amended "abcdefghij" 6 2 10 3 100 id id (by decide)⟩

/-- Folding max over a list is invariant under permutation of the
list. -/
lemma foldl_max_of_perm {l1 l2 : List Nat} (h : l1.Perm l2) :
    ∀ a : Nat, l1.foldl max a = l2.foldl max a := by
  induction h with
  | nil => intro a; rfl
  | cons x _ ih => intro a; simp only [List.foldl_cons]; exact ih _
  | swap x y l => intro a; simp only [List.foldl_cons]; congr 1; omega
  | trans _ _ ih1 ih2 => intro a; rw [ih1, ih2]

/-- The running-maximum loop of the stat block is a fold of max over the
projected values. -/
lemma foldl_if_max_eq (f : DiffEntry → Nat) :
    ∀ (l : List DiffEntry) (a : Nat),
      l.foldl (fun m e => if f e > m then f e else m) a = (l.map f).foldl max a := by
  intro l
  induction l with
  | nil => intro a; rfl
  | cons e t ih =>
    intro a
    simp only [List.foldl_cons, List.map_cons]
    have hm : (if f e > a then f e else a) = max a (f e) := by split <;> omega
    rw [hm, ih]

/-- The running-sum loop of the stat block is the sum of the projected
values. -/
lemma foldl_add_eq (f : DiffEntry → Nat) :
    ∀ (l : List DiffEntry) (a : Nat), l.foldl (fun s e => s + f e) a = a + (l.map f).sum := by
  intro l
  induction l with
  | nil => intro a; simp
  | cons e t ih =>
    intro a
    simp only [List.foldl_cons, List.map_cons, List.sum_cons]
    rw [ih]
    omega

/-- The longest-path scan is invariant under permutation of the
entries. -/
lemma maxPathLenOf_perm {l1 l2 : List DiffEntry} (h : l1.Perm l2) :
    maxPathLenOf l1 = maxPathLenOf l2 := by
  simp only [maxPathLenOf, foldl_if_max_eq]
  exact foldl_max_of_perm (h.map _) 0

/-- The largest-total scan is invariant under permutation of the
entries. -/
lemma maxTotalOf_perm {l1 l2 : List DiffEntry} (h : l1.Perm l2) :
    maxTotalOf l1 = maxTotalOf l2 := by
  simp only [maxTotalOf, foldl_if_max_eq]
  exact foldl_max_of_perm (h.map _) 0

/-- The number-column width is invariant under permutation of the
entries. -/
lemma maxNumLenOf_perm {l1 l2 : List DiffEntry} (h : l1.Perm l2) :
    maxNumLenOf l1 = maxNumLenOf l2 := by
  simp only [maxNumLenOf, maxTotalOf_perm h]

/-- The insertion total is invariant under permutation of the entries. -/
lemma totalAddedOf_perm {l1 l2 : List DiffEntry} (h : l1.Perm l2) :
    totalAddedOf l1 = totalAddedOf l2 := by
  simp only [totalAddedOf, foldl_add_eq]
  rw [(h.map _).sum_eq]

/-- The deletion total is invariant under permutation of the entries. -/
lemma totalRemovedOf_perm {l1 l2 : List DiffEntry} (h : l1.Perm l2) :
    totalRemovedOf l1 = totalRemovedOf l2 := by
  simp only [totalRemovedOf, foldl_add_eq]
  rw [(h.map _).sum_eq]

/-- C3, counterexample: two storage orders of the same two-entry table
render to different byte sequences, so rendering is not a function of
the table alone and the per-file lines are not emitted in lexicographic
path order. -/
theorem c3_render_order_counterexample :
    (([⟨"a", 1, 0⟩, ⟨"b", 0, 1⟩] : List DiffEntry).Perm [⟨"b", 0, 1⟩, ⟨"a", 1, 0⟩]) ∧
      renderDiffStat [⟨"a", 1, 0⟩, ⟨"b", 0, 1⟩] 20 id id ≠
        renderDiffStat [⟨"b", 0, 1⟩, ⟨"a", 1, 0⟩] 20 id id := by
  exact ⟨by decide, by decide⟩

/-- C3, amended: rendering is a deterministic function of the table's
iteration order and the width, and the per-file lines are emitted in the
internal storage order rather than sorted by path: permuting the storage
order permutes the per-file lines line-for-line and leaves the summary
line unchanged. -/
theorem c3_render_perm (l1 l2 : List DiffEntry) (termWidth : Nat)
    (green red : String → String) (h : l1.Perm l2) :
    (diffStatLines l1 termWidth green red).Perm (diffStatLines l2 termWidth green red) ∧
      diffStatSummary l1 = diffStatSummary l2 := by
  constructor
  · simp only [diffStatLines, maxPathLenOf_perm h, maxNumLenOf_perm h]
    exact h.map _
  · simp only [diffStatSummary, h.length_eq, totalAddedOf_perm h, totalRemovedOf_perm h]

/-- Witness for c3_render_perm at the two storage orders of a concrete
two-entry table. -/
theorem c3_render_perm_witness :
    ((diffStatLines [⟨"a", 1, 0⟩, ⟨"b", 0, 1⟩] 20 id id).Perm
        (diffStatLines [⟨"b", 0, 1⟩, ⟨"a", 1, 0⟩] 20 id id)) ∧
      diffStatSummary ([⟨"a", 1, 0⟩, ⟨"b", 0, 1⟩] : List DiffEntry) =
        diffStatSummary [⟨"b", 0, 1⟩, ⟨"a", 1, 0⟩] :=
  c3_render_perm [⟨"a", 1, 0⟩, ⟨"b", 0, 1⟩] [⟨"b", 0, 1⟩, ⟨"a", 1, 0⟩] 20 id id (by decide)

/-- isErr is true exactly for the error outcome of a fetch or push; the
Go code treats both plain success and already-up-to-date as
non-errors. -/
def FetchResult.isErr : FetchResult → Bool
| .errMsg _ => true
| _ => false

/-- A non-clean worktree status makes Update return the unstaged-changes
sentinel with no operation attempted, on both the library path and the
LFS path. -/
lemma update_blocked (r : Repository) (env : Env) (green red : String → String)
    (h : statusIsClean r.status = false) :
    Update r env green red = (r, some .unstagedChanges, []) := by
  unfold Update updateLFSRepository
  cases hl : r.isLFS <;> simp [h, hl]

/-- envIdle is a concrete environment in which every remote reports
already up to date and every native step succeeds without moving the
head. -/
def envIdle : Env :=
  { fetchOrigin := .upToDate, fetchUpstream := .upToDate, pullOrigin := .upToDate,
    upstreamMaster := none, resetOk := true, pushOrigin := .upToDate,
    patch := [], termWidth := 80, lfsFetchOk := true, lfsMergeOk := true,
    lfsMergedHead := "h0", lfsDiffOk := true, lfsDiff := "" }

/-- repoUntracked is a repository whose only status entry is a single
untracked file: no tracked file is modified or deleted. -/
def repoUntracked : Repository :=
  { path := "/src/r1", hasUpstream := false, diffStats := "", isLFS := false,
    status := [⟨"unstaged.txt", .untracked, .untracked⟩],
    headBranch := "master", headHash := "h0", upstreamDefaultBranch := "master" }

/-- C1, counterexample: a repository whose status holds only an
untracked file, with no modified or deleted tracked file, still makes
Update return the uncommitted-changes warning, because the clean check
rejects any non-empty status. -/
theorem c1_untracked_counterexample :
    (repoUntracked.status.all (fun f =>
      !(f.staging == .modified || f.staging == .deleted ||
        f.worktree == .modified || f.worktree == .deleted)) = true) ∧
      (Update repoUntracked envIdle id id).2.1 = some .unstagedChanges := by
  exact ⟨by decide, by decide⟩

/-- C1, amended: Update returns the UncommittedChanges warning whenever
the worktree status is not clean in the go-git sense, that is, whenever
any entry (modified, deleted, added or merely untracked) is present:
untracked files alone DO block the update, and no operation is attempted
in that case. -/
theorem c1_unclean_blocks (r : Repository) (env : Env) (green red : String → String)
    (h : statusIsClean r.status = false) :
    (Update r env green red).2.1 = some .unstagedChanges ∧
      (Update r env green red).2.2 = [] := by
  rw [update_blocked r env green red h]
  exact ⟨rfl, rfl⟩

/-- Witness for c1_unclean_blocks at the untracked-only repository. -/
theorem c1_unclean_blocks_witness :
    statusIsClean repoUntracked.status = false ∧
      ((Update repoUntracked envIdle id id).2.1 = some .unstagedChanges ∧
        (Update repoUntracked envIdle id id).2.2 = []) :=
  ⟨by decide, c1_unclean_blocks repoUntracked envIdle id id (by decide)⟩

/-- repoModified is a repository with a single tracked file modified in
the worktree. -/
def repoModified : Repository :=
  { path := "/src/r2", hasUpstream := false, diffStats := "", isLFS := false,
    status := [⟨"main.go", .unmodified, .modified⟩],
    headBranch := "master", headHash := "h0", upstreamDefaultBranch := "master" }

/-- C2: a repository with a modified or deleted tracked file makes
Update return the uncommitted-changes sentinel, the attempted operation
list is empty (no fetch, pull, reset, merge or push), and the worker of
the update command classifies the result as a warning and never as an
error. -/
theorem c2_tracked_modification_warns (r : Repository) (env : Env)
    (green red : String → String)
    (h : ∃ f ∈ r.status, f.worktree = .modified ∨ f.worktree = .deleted) :
    (Update r env green red).2.1 = some .unstagedChanges ∧
      (Update r env green red).2.2 = [] ∧
      (mkUpdateResult r.path (Update r env green red).2.1).warning ≠ "" ∧
      (mkUpdateResult r.path (Update r env green red).2.1).error = none := by
  have hclean : statusIsClean r.status = false := by
    rcases h with ⟨f, hf, hw⟩
    cases hb : statusIsClean r.status with
    | false => rfl
    | true =>
      exfalso
      rw [statusIsClean, List.all_eq_true] at hb
      have hf2 := hb f hf
      rcases hw with hw | hw <;> rw [hw] at hf2 <;> simp at hf2
  rw [update_blocked r env green red hclean]
  refine ⟨rfl, rfl, ?_, rfl⟩
  simp [mkUpdateResult]

/-- Witness for c2_tracked_modification_warns at the repository with one
modified tracked file. -/
theorem c2_tracked_modification_warns_witness :
    (∃ f ∈ repoModified.status,
        f.worktree = StatusCode.modified ∨ f.worktree = StatusCode.deleted) ∧
      ((Update repoModified envIdle id id).2.1 = some .unstagedChanges ∧
        (Update repoModified envIdle id id).2.2 = [] ∧
        (mkUpdateResult repoModified.path (Update repoModified envIdle id id).2.1).warning ≠ "" ∧
        (mkUpdateResult repoModified.path (Update repoModified envIdle id id).2.1).error = none) :=
  ⟨⟨⟨"main.go", .unmodified, .modified⟩, by decide, Or.inl rfl⟩,
    c2_tracked_modification_warns repoModified envIdle id id
      ⟨⟨"main.go", .unmodified, .modified⟩, by decide, Or.inl rfl⟩⟩

/-- synchronized states that the environment reports nothing new for
this repository: fetches do not fail, on the plain path the pull is
already up to date, and on the fork path the upstream master hash
already equals the current head, the reset succeeds and the push is
accepted. -/
def synchronized (r : Repository) (env : Env) : Bool :=
  if r.hasUpstream then
    !env.fetchUpstream.isErr && env.upstreamMaster == some r.headHash &&
      env.resetOk && !env.pushOrigin.isErr
  else
    !env.fetchOrigin.isErr && env.pullOrigin == .upToDate

/-- An up-to-date pull after a non-failing fetch leaves the repository
untouched and succeeds. -/
lemma updateOrigin_upToDate (r : Repository) (env : Env)
    (hfo : env.fetchOrigin.isErr = false) (hp : env.pullOrigin = .upToDate) :
    updateOrigin r env = (r, none, [.fetch "origin", .pull "origin" r.headBranch]) := by
  unfold updateOrigin
  cases hf : env.fetchOrigin with
  | errMsg m => rw [hf] at hfo; exact absurd hfo (by simp [FetchResult.isErr])
  | ok => rw [hp]
  | upToDate => rw [hp]

/-- When the upstream master hash already equals the current head, a
successful fork-workflow pass returns the repository unchanged. -/
lemma updateWithUpstream_noop (r : Repository) (env : Env)
    (hfu : env.fetchUpstream.isErr = false) (hm : env.upstreamMaster = some r.headHash)
    (hr : env.resetOk = true) (hp : env.pushOrigin.isErr = false) :
    updateWithUpstream r env = (r, none,
      [.fetch "upstream", .resetHard "refs/remotes/upstream/master",
        .push "origin" (pushRefspec r.headBranch) true]) := by
  unfold updateWithUpstream
  cases hf : env.fetchUpstream with
  | errMsg m => rw [hf] at hfu; exact absurd hfu (by simp [FetchResult.isErr])
  | ok =>
    rw [hm]
    simp only [hr, if_true]
    cases hpo : env.pushOrigin with
    | errMsg m => rw [hpo] at hp; exact absurd hp (by simp [FetchResult.isErr])
    | ok => rfl
    | upToDate => rfl
  | upToDate =>
    rw [hm]
    simp only [hr, if_true]
    cases hpo : env.pushOrigin with
    | errMsg m => rw [hpo] at hp; exact absurd hp (by simp [FetchResult.isErr])
    | ok => rfl
    | upToDate => rfl

/-- A clean non-LFS repository in a synchronized environment is returned
unchanged by Update, with a nil error. -/
lemma update_synchronized (r : Repository) (env : Env) (green red : String → String)
    (hl : r.isLFS = false) (hc : statusIsClean r.status = true)
    (hs : synchronized r env = true) :
    Update r env green red = (r, none,
      if r.hasUpstream then
        [GitOp.fetch "upstream", GitOp.resetHard "refs/remotes/upstream/master",
          GitOp.push "origin" (pushRefspec r.headBranch) true]
      else [GitOp.fetch "origin", GitOp.pull "origin" r.headBranch]) := by
  have hstep : (if r.hasUpstream then updateWithUpstream r env else updateOrigin r env) =
      (r, none,
        if r.hasUpstream then
          [GitOp.fetch "upstream", GitOp.resetHard "refs/remotes/upstream/master",
            GitOp.push "origin" (pushRefspec r.headBranch) true]
        else [GitOp.fetch "origin", GitOp.pull "origin" r.headBranch]) := by
    cases hu : r.hasUpstream with
    | true =>
      simp only [synchronized, hu, if_true, Bool.and_eq_true, Bool.not_eq_true',
        beq_iff_eq] at hs
      obtain ⟨⟨⟨h1, h2⟩, h3⟩, h4⟩ := hs
      simp only [if_true]
      exact updateWithUpstream_noop r env h1 h2 h3 h4
    | false =>
      simp only [synchronized, hu, Bool.false_eq_true, if_false, Bool.and_eq_true,
        Bool.not_eq_true', beq_iff_eq] at hs
      obtain ⟨h1, h2⟩ := hs
      simp only [Bool.false_eq_true, if_false]
      exact updateOrigin_upToDate r env h1 h2
  unfold Update
  rw [hstep]
  simp [hl, hc]

/-- repoClean is a clean repository with no upstream remote and no
attached diff-stat text. -/
def repoClean : Repository :=
  { path := "/src/r3", hasUpstream := false, diffStats := "", isLFS := false,
    status := [], headBranch := "master", headHash := "h0", upstreamDefaultBranch := "master" }

/-- C9: running Update twice on an already-synchronized clean repository
succeeds both times, leaves the head reference where it was, and
attaches no diff-stat text. -/
theorem c9_idempotent_success (r : Repository) (env : Env) (green red : String → String)
    (hl : r.isLFS = false) (hc : statusIsClean r.status = true)
    (hs : synchronized r env = true) (hd : r.diffStats = "") :
    (Update r env green red).2.1 = none ∧
      (Update (Update r env green red).1 env green red).2.1 = none ∧
      (Update (Update r env green red).1 env green red).1.diffStats = "" ∧
      (Update (Update r env green red).1 env green red).1.headHash = r.headHash := by
  have h1 := update_synchronized r env green red hl hc hs
  simp [h1, hd]

/-- Witness for c9_idempotent_success at a clean repository in the idle
environment. -/
theorem c9_idempotent_success_witness :
    (statusIsClean repoClean.status = true ∧ synchronized repoClean envIdle = true ∧
        repoClean.diffStats = "") ∧
      ((Update repoClean envIdle id id).2.1 = none ∧
        (Update (Update repoClean envIdle id id).1 envIdle id id).2.1 = none ∧
        (Update (Update repoClean envIdle id id).1 envIdle id id).1.diffStats = "" ∧
        (Update (Update repoClean envIdle id id).1 envIdle id id).1.headHash =
          repoClean.headHash) :=
  ⟨⟨by decide, by decide, rfl⟩,
    c9_idempotent_success repoClean envIdle id id rfl (by decide) (by decide) rfl⟩

/-- updateOrigin never touches the DiffStats field, whatever the
environment does. -/
lemma updateOrigin_diffStats (r : Repository) (env : Env) :
    (updateOrigin r env).1.diffStats = r.diffStats := by
  unfold updateOrigin
  cases env.fetchOrigin <;> cases env.pullOrigin <;> rfl

/-- updateWithUpstream never touches the DiffStats field, whatever the
environment does. -/
lemma updateWithUpstream_diffStats (r : Repository) (env : Env) :
    (updateWithUpstream r env).1.diffStats = r.diffStats := by
  unfold updateWithUpstream
  cases env.fetchUpstream <;> cases hm : env.upstreamMaster <;>
    cases hr : env.resetOk <;> cases env.pushOrigin <;> simp [hr]

/-- C10: whenever Update returns an error (from the clean check or from
any synchronization step), the DiffStats field of the repository is left
exactly as it was: diff statistics are attached only after an error-free
synchronization. -/
theorem c10_diffstats_frame (r : Repository) (env : Env) (green red : String → String)
    (e : UpdateError) (h : (Update r env green red).2.1 = some e) :
    (Update r env green red).1.diffStats = r.diffStats := by
  unfold Update at h ⊢
  cases hl : r.isLFS with
  | true =>
    simp only [hl, eq_self_iff_true, if_true] at h ⊢
    unfold updateLFSRepository at h ⊢
    cases hcl : statusIsClean r.status <;>
      cases hfo : env.lfsFetchOk <;>
        cases hme : env.lfsMergeOk <;>
          cases hdo : env.lfsDiffOk <;>
            simp [hcl, hfo, hme, hdo] at h ⊢
  | false =>
    simp only [hl, Bool.false_eq_true, if_false] at h ⊢
    cases hcl : statusIsClean r.status with
    | false => simp [hcl] at h ⊢
    | true =>
      simp only [hcl, Bool.not_true, Bool.false_eq_true, if_false] at h ⊢
      rcases hres : (if r.hasUpstream then updateWithUpstream r env else updateOrigin r env)
        with ⟨r1, e1, ops⟩
      have hr1 : r1.diffStats = r.diffStats := by
        cases hu : r.hasUpstream with
        | true =>
          rw [hu] at hres
          simp only [eq_self_iff_true, if_true] at hres
          have hds := updateWithUpstream_diffStats r env
          rw [hres] at hds
          exact hds
        | false =>
          rw [hu] at hres
          simp only [Bool.false_eq_true, if_false] at hres
          have hds := updateOrigin_diffStats r env
          rw [hres] at hds
          exact hds
      cases e1 with
      | some e2 => exact hr1
      | none =>
        exfalso
        rw [hres] at h
        split at h
        · simp_all
        · split at h
          · simp_all
          · split at h
            · simp_all
            · simp_all

/-- envFetchFail is the idle environment with a failing origin fetch. -/
def envFetchFail : Env :=
  { envIdle with fetchOrigin := .errMsg "boom" }

/-- Witness for c10_diffstats_frame at a clean repository whose origin
fetch fails. -/
theorem c10_diffstats_frame_witness :
    (Update repoClean envFetchFail id id).2.1 =
        some (.other "failed to fetch from origin: boom") ∧
      (Update repoClean envFetchFail id id).1.diffStats = repoClean.diffStats :=
  ⟨by decide, c10_diffstats_frame repoClean envFetchFail id id
    (.other "failed to fetch from origin: boom") (by decide)⟩

/-- specForkTrace follows the words of the spec for the fork workflow:
fetch the upstream remote, hard-reset the current branch to the upstream
remote default branch, and force-push the result to the corresponding
branch on origin. It is stated for comparison against the operation list
the source produces. -/
def specForkTrace (r : Repository) : List GitOp :=
  [.fetch "upstream", .resetHard ("refs/remotes/upstream/" ++ r.upstreamDefaultBranch),
    .push "origin" (pushRefspec r.headBranch) true]

/-- repoFork is a clean fork-workflow repository whose upstream remote
uses main, not master, as its default branch. -/
def repoFork : Repository :=
  { path := "/src/fork", hasUpstream := true, diffStats := "", isLFS := false,
    status := [], headBranch := "main", headHash := "h0", upstreamDefaultBranch := "main" }

/-- envForkOk is an environment in which the fork workflow fully
succeeds, with the upstream master reference resolving to a new hash. -/
def envForkOk : Env :=
  { envIdle with fetchUpstream := .ok, upstreamMaster := some "h1", pushOrigin := .ok }

/-- C8, counterexample: on a clean fork-workflow repository whose
upstream default branch is main, Update still resets to the hard-coded
refs/remotes/upstream/master, so the attempted operations differ from
the spec sequence that names the upstream default branch. -/
theorem c8_fork_sequence_counterexample :
    repoFork.hasUpstream = true ∧ statusIsClean repoFork.status = true ∧
      repoFork.upstreamDefaultBranch = "main" ∧
      (Update repoFork envForkOk id id).2.2 ≠ specForkTrace repoFork := by
  exact ⟨rfl, by decide, rfl, by decide⟩

/-- The operation list produced by a fork-workflow pass whose fetch,
reference lookup and reset all succeed: fetch upstream, hard-reset to
refs/remotes/upstream/master, force-push the current branch to
origin. -/
lemma updateWithUpstream_ops (r : Repository) (env : Env)
    (hf : env.fetchUpstream.isErr = false) (hm : env.upstreamMaster.isSome = true)
    (hr : env.resetOk = true) :
    (updateWithUpstream r env).2.2 =
      [.fetch "upstream", .resetHard "refs/remotes/upstream/master",
        .push "origin" (pushRefspec r.headBranch) true] := by
  unfold updateWithUpstream
  cases hfu : env.fetchUpstream with
  | errMsg m => rw [hfu] at hf; exact absurd hf (by simp [FetchResult.isErr])
  | ok =>
    cases hum : env.upstreamMaster with
    | none => rw [hum] at hm; exact absurd hm (by simp)
    | some hsh =>
      simp only [hr, if_true]
      cases env.pushOrigin <;> rfl
  | upToDate =>
    cases hum : env.upstreamMaster with
    | none => rw [hum] at hm; exact absurd hm (by simp)
    | some hsh =>
      simp only [hr, if_true]
      cases env.pushOrigin <;> rfl

/-- On a clean non-LFS repository, Update passes the operation list of
the synchronization step through unchanged, whether or not the step
failed and whether or not a diff-stat was attached. -/
lemma update_ops_eq (r : Repository) (env : Env) (green red : String → String)
    (hl : r.isLFS = false) (hc : statusIsClean r.status = true) :
    (Update r env green red).2.2 =
      (if r.hasUpstream then updateWithUpstream r env else updateOrigin r env).2.2 := by
  unfold Update
  simp only [hl, Bool.false_eq_true, if_false, hc, Bool.not_true]
  rcases hres : (if r.hasUpstream then updateWithUpstream r env else updateOrigin r env)
    with ⟨r1, e1, ops⟩
  cases e1 with
  | some e2 => rfl
  | none =>
    split
    · simp_all
    · split
      · simp_all
      · split
        · simp_all
        · simp_all

/-- C8, amended: for every clean non-LFS fork-workflow repository whose
upstream fetch does not fail, whose upstream master reference resolves
and whose reset succeeds, Update attempts exactly: fetch the upstream
remote, hard-reset to the hard-coded refs/remotes/upstream/master
(regardless of the upstream actual default branch), and force-push the
current branch to origin. LFS repositories instead fetch and
fast-forward-merge with no push. -/
theorem c8_fork_sequence_amended (r : Repository) (env : Env) (green red : String → String)
    (hl : r.isLFS = false) (hc : statusIsClean r.status = true) (hu : r.hasUpstream = true)
    (hf : env.fetchUpstream.isErr = false) (hm : env.upstreamMaster.isSome = true)
    (hr : env.resetOk = true) :
    (Update r env green red).2.2 =
      [.fetch "upstream", .resetHard "refs/remotes/upstream/master",
        .push "origin" (pushRefspec r.headBranch) true] := by
  rw [update_ops_eq r env green red hl hc, hu]
  simp only [if_true]
  exact updateWithUpstream_ops r env hf hm hr

/-- Witness for c8_fork_sequence_amended at the concrete fork repository
and fully succeeding environment. -/
theorem c8_fork_sequence_amended_witness :
    (repoFork.isLFS = false ∧ statusIsClean repoFork.status = true ∧
        repoFork.hasUpstream = true ∧ envForkOk.fetchUpstream.isErr = false ∧
        envForkOk.upstreamMaster.isSome = true ∧ envForkOk.resetOk = true) ∧
      (Update repoFork envForkOk id id).2.2 =
        [.fetch "upstream", .resetHard "refs/remotes/upstream/master",
          .push "origin" (pushRefspec repoFork.headBranch) true] :=
  ⟨⟨rfl, by decide, rfl, by decide, rfl, rfl⟩,
    c8_fork_sequence_amended repoFork envForkOk id id rfl (by decide) rfl (by decide) rfl rfl⟩

/-- poolMeasure is the multiset of results that the pending, claimed and
finished repositories of a pool state will have contributed once the run
ends. -/
def poolMeasure (upd : String → UpdateResult) (s : PoolState) : Multiset UpdateResult :=
  ↑(s.jobs.map upd) + s.inFlight.map upd + s.results

/-- Each scheduler event preserves the pool measure: claiming moves a
descriptor from the channel to a worker, finishing moves it from a
worker to the results. -/
lemma poolStep_measure {upd : String → UpdateResult} {numWorkers : Nat} {s t : PoolState}
    (h : PoolStep upd numWorkers s t) : poolMeasure upd t = poolMeasure upd s := by
  cases h with
  | claim d rest f res hcard =>
    simp only [poolMeasure, List.map_cons, Multiset.map_cons]
    rw [← Multiset.cons_coe]
    simp only [← Multiset.singleton_add]
    abel
  | finish d jobs f res hmem =>
    have hf : f = d ::ₘ f.erase d := (Multiset.cons_erase hmem).symm
    have hmap : Multiset.map upd f = upd d ::ₘ Multiset.map upd (f.erase d) := by
      conv_lhs => rw [hf]
      rw [Multiset.map_cons]
    simp only [poolMeasure, hmap, Multiset.add_cons, Multiset.cons_add]

/-- The pool measure is constant along any run of the scheduler. -/
lemma poolRun_measure {upd : String → UpdateResult} {numWorkers : Nat} {s t : PoolState}
    (h : Relation.ReflTransGen (PoolStep upd numWorkers) s t) :
    poolMeasure upd t = poolMeasure upd s := by
  induction h with
  | refl => rfl
  | tail _ hbc ih => rw [poolStep_measure hbc, ih]

/-- The worker-count clamp lands in the interval from 1 to the number of
repositories whenever at least one repository is present. -/
lemma clampWorkers_bounds (threads : Int) (n : Nat) (hn : 1 ≤ n) :
    1 ≤ clampWorkers threads n ∧ clampWorkers threads n ≤ n := by
  simp only [clampWorkers]
  rcases lt_or_le threads 1 with h | h
  · rw [if_pos h]
    split <;> omega
  · rw [if_neg (not_lt.mpr h)]
    split <;> omega

/-- C6: the update command clamps the requested worker count into the
interval from 1 to the number of descriptors, and any completed run of
the worker pool (empty channel, no busy worker) has delivered exactly
one result per descriptor: the result multiset is precisely the image of
the descriptor list under the worker function, so no descriptor is
skipped or processed twice, and exactly N outcomes exist. -/
theorem c6_pool_exactly_once (threads : Int) (descriptors : List String)
    (upd : String → UpdateResult) (numWorkers : Nat) (s : PoolState)
    (hn : 1 ≤ descriptors.length)
    (hrun : Relation.ReflTransGen (PoolStep upd numWorkers) (initPool descriptors) s)
    (hjobs : s.jobs = []) (hflight : s.inFlight = 0) :
    (1 ≤ clampWorkers threads descriptors.length ∧
        clampWorkers threads descriptors.length ≤ descriptors.length) ∧
      s.results = ↑(descriptors.map upd) ∧
      Multiset.card s.results = descriptors.length := by
  refine ⟨clampWorkers_bounds threads descriptors.length hn, ?_⟩
  have hm := poolRun_measure hrun
  simp only [poolMeasure, initPool, hjobs, hflight, List.map_nil, Multiset.map_zero,
    Multiset.coe_nil, zero_add, add_zero] at hm
  refine ⟨hm, ?_⟩
  rw [hm, Multiset.coe_card, List.length_map]

/-- updTrivial is a concrete worker function mapping a path to a plain
success result. -/
def updTrivial (path : String) : UpdateResult := ⟨path, none, ""⟩

/-- poolFinal is the terminal pool state of a one-descriptor run of the
pool. -/
def poolFinal : PoolState :=
  ⟨[], ("r1" ::ₘ (0 : Multiset String)).erase "r1", updTrivial "r1" ::ₘ 0⟩

/-- Witness for c6_pool_exactly_once on a one-descriptor run with one
worker: claim the descriptor, then finish it. -/
theorem c6_pool_exactly_once_witness :
    1 ≤ ["r1"].length ∧
      ((1 ≤ clampWorkers 4 ["r1"].length ∧ clampWorkers 4 ["r1"].length ≤ ["r1"].length) ∧
        poolFinal.results = ↑(["r1"].map updTrivial) ∧
        Multiset.card poolFinal.results = ["r1"].length) :=
  ⟨by decide,
    c6_pool_exactly_once 4 ["r1"] updTrivial 1 poolFinal (by decide)
      (Relation.ReflTransGen.tail
        (Relation.ReflTransGen.single
          (PoolStep.claim "r1" [] 0 0 (by simp)))
        (PoolStep.finish "r1" [] ("r1" ::ₘ 0) 0 (Multiset.mem_cons_self "r1" 0)))
      rfl (by decide)⟩

/-- isErrorRes classifies a result the way the first branch of the
result loop does: the error field is set. -/
def isErrorRes (res : UpdateResult) : Bool := res.error.isSome

/-- isWarningRes classifies a result the way the second branch of the
result loop does: no error and a non-empty warning. -/
def isWarningRes (res : UpdateResult) : Bool := res.error.isNone && !(res.warning == "")

/-- isSuccessRes classifies a result the way the final branch of the
result loop does: no error and an empty warning. -/
def isSuccessRes (res : UpdateResult) : Bool := res.error.isNone && (res.warning == "")

/-- Inserting a fresh key into the warnings map appends one entry. -/
lemma insertWarning_of_not_mem (m : List (String × String)) (k v : String)
    (h : k ∉ m.map Prod.fst) :
    insertWarning m k v = m ++ [(k, v)] := by
  unfold insertWarning
  rw [if_neg]
  intro hany
  rw [List.any_eq_true] at hany
  obtain ⟨p, hp, hpk⟩ := hany
  exact h (List.mem_map.mpr ⟨p, hp, beq_iff_eq.mp hpk⟩)

/-- Every result takes exactly one branch of the result loop, so the
three classification counts partition the result list. -/
lemma countP_partition (results : List UpdateResult) :
    results.countP isSuccessRes + results.countP isWarningRes + results.countP isErrorRes
      = results.length := by
  induction results with
  | nil => rfl
  | cons res t ih =>
    simp only [List.countP_cons, List.length_cons]
    cases he : res.error with
    | some e =>
      simp [isSuccessRes, isWarningRes, isErrorRes, he]
      omega
    | none =>
      by_cases hw : res.warning = "" <;>
        simp [isSuccessRes, isWarningRes, isErrorRes, he, hw] <;> omega

/-- Running the result loop from an accumulator whose warning keys are
disjoint from the incoming paths adds exactly the per-branch counts to
the error list, the warnings map and the processed count, provided the
incoming paths are pairwise distinct. -/
lemma aggregate_loop (results : List UpdateResult) : ∀ st : AggState,
    (results.map (fun res => res.path)).Nodup →
    (∀ p, p ∈ st.warnings.map Prod.fst → p ∉ results.map (fun res => res.path)) →
    (results.foldl aggStep st).errors.length
        = st.errors.length + results.countP isErrorRes ∧
      (results.foldl aggStep st).warnings.length
        = st.warnings.length + results.countP isWarningRes ∧
      (results.foldl aggStep st).count = st.count + results.length := by
  induction results with
  | nil => intro st hnd hdisj; simp
  | cons res t ih =>
    intro st hnd hdisj
    simp only [List.map_cons, List.nodup_cons] at hnd
    obtain ⟨hhead, htail⟩ := hnd
    simp only [List.foldl_cons, List.countP_cons, List.length_cons]
    cases he : res.error with
    | some e =>
      have hstep : aggStep st res =
          { st with count := st.count + 1, errors := st.errors ++ [(res.path, e)] } := by
        unfold aggStep; rw [he]
      have hdisj2 : ∀ p, p ∈ (aggStep st res).warnings.map Prod.fst →
          p ∉ t.map (fun r => r.path) := by
        intro p hp hmem
        rw [hstep] at hp
        exact hdisj p hp (List.mem_cons_of_mem _ hmem)
      obtain ⟨ih1, ih2, ih3⟩ := ih (aggStep st res) htail hdisj2
      rw [ih1, ih2, ih3, hstep]
      simp only [isErrorRes, isWarningRes, isSuccessRes, he, Option.isSome_some,
        Option.isNone_some, Bool.false_and, List.length_append]
      refine ⟨by simp; omega, by simp, by omega⟩
    | none =>
      by_cases hw : res.warning = ""
      · have hstep : aggStep st res = { st with count := st.count + 1 } := by
          unfold aggStep; rw [he]; simp [hw]
        have hdisj2 : ∀ p, p ∈ (aggStep st res).warnings.map Prod.fst →
            p ∉ t.map (fun r => r.path) := by
          intro p hp hmem
          rw [hstep] at hp
          exact hdisj p hp (List.mem_cons_of_mem _ hmem)
        obtain ⟨ih1, ih2, ih3⟩ := ih (aggStep st res) htail hdisj2
        rw [ih1, ih2, ih3, hstep]
        simp only [isErrorRes, isWarningRes, isSuccessRes, he, Option.isSome_none,
          Option.isNone_none, Bool.true_and, hw]
        refine ⟨by simp, by simp, by omega⟩
      · have hknotmem : res.path ∉ st.warnings.map Prod.fst := by
          intro hk
          exact hdisj res.path hk (List.mem_cons_self _ _)
        have hstep : aggStep st res =
            { st with count := st.count + 1, warnings := st.warnings ++ [(res.path, res.warning)] } := by
          unfold aggStep
          rw [he, if_pos hw, insertWarning_of_not_mem st.warnings res.path res.warning hknotmem]
        have hdisj2 : ∀ p, p ∈ (aggStep st res).warnings.map Prod.fst →
            p ∉ t.map (fun r => r.path) := by
          intro p hp hmem
          rw [hstep] at hp
          simp only [List.map_append, List.mem_append, List.map_cons, List.map_nil,
            List.mem_singleton] at hp
          cases hp with
          | inl hp => exact hdisj p hp (List.mem_cons_of_mem _ hmem)
          | inr hp => rw [hp] at hmem; exact hhead hmem
        obtain ⟨ih1, ih2, ih3⟩ := ih (aggStep st res) htail hdisj2
        rw [ih1, ih2, ih3, hstep]
        simp only [isErrorRes, isWarningRes, isSuccessRes, he, Option.isSome_none,
          Option.isNone_none, Bool.true_and, List.length_append]
        refine ⟨by simp, ?_, by omega⟩
        have : (!(res.warning == "")) = true := by simp [hw]
        rw [this]
        simp
        omega

/-- C7: the worker never sets both an error and a warning on one result,
every result falls in exactly one of the three classes (so the class
counts partition the result list), and the final tallies of the
aggregator satisfy: error-list length = number of error results,
warnings-map size = number of warning results, and the printed success
count (descriptors minus errors minus warnings) = number of success
results, whenever the repository paths are pairwise distinct. -/
theorem c7_outcome_partition (results : List UpdateResult)
    (hnodup : (results.map (fun res => res.path)).Nodup) :
    (∀ (p : String) (e : Option UpdateError),
        ¬((mkUpdateResult p e).error ≠ none ∧ (mkUpdateResult p e).warning ≠ "")) ∧
      results.countP isSuccessRes + results.countP isWarningRes + results.countP isErrorRes
        = results.length ∧
      (aggregate results).errors.length = results.countP isErrorRes ∧
      (aggregate results).warnings.length = results.countP isWarningRes ∧
      printedSuccesses results.length (aggregate results) = results.countP isSuccessRes := by
  have hexcl : ∀ (p : String) (e : Option UpdateError),
      ¬((mkUpdateResult p e).error ≠ none ∧ (mkUpdateResult p e).warning ≠ "") := by
    intro p e
    cases e with
    | none => simp [mkUpdateResult]
    | some err => cases err <;> simp [mkUpdateResult]
  obtain ⟨h1, h2, h3⟩ := aggregate_loop results ⟨0, [], []⟩ hnodup (by simp)
  have hpart := countP_partition results
  have he1 : (aggregate results).errors.length = results.countP isErrorRes := by
    rw [aggregate, h1]
    simp
  have he2 : (aggregate results).warnings.length = results.countP isWarningRes := by
    rw [aggregate, h2]
    simp
  refine ⟨hexcl, hpart, he1, he2, ?_⟩
  rw [printedSuccesses, he1, he2]
  omega

/-- Witness for c7_outcome_partition at a three-result list with one
success, one warning and one error at distinct paths. -/
theorem c7_outcome_partition_witness :
    (([⟨"a", none, ""⟩, ⟨"b", none, "worktree contains uncommitted changes"⟩,
        ⟨"c", some (.other "x"), ""⟩] : List UpdateResult).map (fun res => res.path)).Nodup ∧
      ((∀ (p : String) (e : Option UpdateError),
          ¬((mkUpdateResult p e).error ≠ none ∧ (mkUpdateResult p e).warning ≠ "")) ∧
        ([⟨"a", none, ""⟩, ⟨"b", none, "worktree contains uncommitted changes"⟩,
            ⟨"c", some (.other "x"), ""⟩] : List UpdateResult).countP isSuccessRes +
          ([⟨"a", none, ""⟩, ⟨"b", none, "worktree contains uncommitted changes"⟩,
              ⟨"c", some (.other "x"), ""⟩] : List UpdateResult).countP isWarningRes +
          ([⟨"a", none, ""⟩, ⟨"b", none, "worktree contains uncommitted changes"⟩,
              ⟨"c", some (.other "x"), ""⟩] : List UpdateResult).countP isErrorRes = 3 ∧
        (aggregate [⟨"a", none, ""⟩, ⟨"b", none, "worktree contains uncommitted changes"⟩,
            ⟨"c", some (.other "x"), ""⟩]).errors.length =
          ([⟨"a", none, ""⟩, ⟨"b", none, "worktree contains uncommitted changes"⟩,
              ⟨"c", some (.other "x"), ""⟩] : List UpdateResult).countP isErrorRes ∧
        (aggregate [⟨"a", none, ""⟩, ⟨"b", none, "worktree contains uncommitted changes"⟩,
            ⟨"c", some (.other "x"), ""⟩]).warnings.length =
          ([⟨"a", none, ""⟩, ⟨"b", none, "worktree contains uncommitted changes"⟩,
              ⟨"c", some (.other "x"), ""⟩] : List UpdateResult).countP isWarningRes ∧
        printedSuccesses 3
            (aggregate [⟨"a", none, ""⟩, ⟨"b", none, "worktree contains uncommitted changes"⟩,
              ⟨"c", some (.other "x"), ""⟩]) =
          ([⟨"a", none, ""⟩, ⟨"b", none, "worktree contains uncommitted changes"⟩,
              ⟨"c", some (.other "x"), ""⟩] : List UpdateResult).countP isSuccessRes) :=
  ⟨by decide,
    c7_outcome_partition
      [⟨"a", none, ""⟩, ⟨"b", none, "worktree contains uncommitted changes"⟩,
        ⟨"c", some (.other "x"), ""⟩] (by decide)⟩
